import Mathlib

/-!
Verification of the rpt2pnp core against its natural-language specification.

The development shallowly embeds the C++ sources:
  * `pnp-config.cc` (both configuration parsers and the appended `tape.cc`
    implementation of the `Tape` feed-state machine), and
  * the main translation unit (`rpt2pnp.cc`): component/tape binding lookup,
    the pick-and-place visit ordering, the solder-dispense pipeline, and the
    run-scoped dispense-time constants.

Modelling conventions:
  * C++ `float` arithmetic is embedded with exact rational (`ℚ`) arithmetic;
    no verified property depends on rounding behaviour.
  * C++ `int` is embedded as `ℤ` (no operation here approaches the 32-bit
    range).
  * Functions returning a success `bool` plus out-parameters become
    `Option`-returning functions; functions returning `NULL` on error become
    `Option`-returning functions.
  * The `tape_for_component` map holds `Tape*` pointers, several keys possibly
    aliasing one tape object.  We embed the pointer store as a list of `Tape`
    values (`tapes`) and the map as an association list from key to index, so
    aliasing and in-place mutation are preserved.
-/

namespace Rpt2pnp

/-- Feed state of one component reel (`class Tape`, fields `x_, y_, z_, dx_,
dy_, angle_, count_` of `tape.cc`).  The cached float `slant_angle_` is not
stored: it is written only by `SetComponentSpacing` and always equals
`slantAngleDeg dx dy` (see below), so it is carried as a derived view. -/
structure Tape where
  x : ℚ
  y : ℚ
  z : ℚ
  dx : ℚ
  dy : ℚ
  angle : ℚ
  count : ℤ
deriving DecidableEq

/-- Constructor `Tape::Tape()`: zero position and spacing, `count_(1000)`. -/
def Tape.init : Tape := ⟨0, 0, 0, 0, 0, 0, 1000⟩

/-- Setter `Tape::SetFirstComponentPosition(x, y, z)`. -/
def Tape.SetFirstComponentPosition (t : Tape) (x y z : ℚ) : Tape :=
  { t with x := x, y := y, z := z }

/-- Setter `Tape::SetComponentSpacing(dx, dy)`.  The C++ code additionally caches
`slant_angle_ = 360/(2π)·atan2f(dy, dx)`; that cache is the derived view
`Tape.slantAngle` below and is determined by the `dx`/`dy` fields set here. -/
def Tape.SetComponentSpacing (t : Tape) (dx dy : ℚ) : Tape :=
  { t with dx := dx, dy := dy }

/-- Setter `Tape::SetAngle(a)` (setter for `angle_`, the placement-angle offset). -/
def Tape.SetAngle (t : Tape) (a : ℚ) : Tape := { t with angle := a }

/-- Setter `Tape::SetNumberComponents(n)`. -/
def Tape.SetNumberComponents (t : Tape) (n : ℤ) : Tape := { t with count := n }

/-- The expression `360.0 / (2 * M_PI) * atan2f(dy, dx)` — the informational slant angle in
degrees, embedded with exact reals (`atan2(y, x) = arg (x + iy)`). -/
noncomputable def slantAngleDeg (dx dy : ℚ) : ℝ :=
  360 / (2 * Real.pi) * Complex.arg ⟨(dx : ℝ), (dy : ℝ)⟩

/-- Derived view of the `slant_angle_` cache field. -/
noncomputable def Tape.slantAngle (t : Tape) : ℝ := slantAngleDeg t.dx t.dy

/-- Query `Tape::GetPos(float *x, float *y)`: fails (returns `false`, leaving the
out-parameters unwritten) once `count_ <= 0`, otherwise yields `(x_, y_)`. -/
def Tape.GetPos (t : Tape) : Option (ℚ × ℚ) :=
  if t.count ≤ 0 then none else some (t.x, t.y)

/-- Operation `Tape::Advance()`: fails leaving the state untouched when `count_ <= 0`;
otherwise translates `(x_, y_)` by `(dx_, dy_)` (z stays the same) and
decrements `count_`. -/
def Tape.Advance (t : Tape) : Bool × Tape :=
  if t.count ≤ 0 then (false, t)
  else (true, { t with x := t.x + t.dx, y := t.y + t.dy, count := t.count - 1 })

/-- Modelled from the spec: `Tape::height()` is the accessor, declared in the
header `tape.h` (not among the sources), for the pickup z-coordinate; the
spec calls the bound tape's `z` its "pickup height" (§3, §4.2), and the
config template comments in the source say "z: pick-up-height". -/
def Tape.height (t : Tape) : ℚ := t.z

/-- Iterated advancing: `k` successive `Advance` calls, earliest first. -/
def Tape.advanceN (t : Tape) : ℕ → Tape
  | 0 => t
  | k + 1 => Tape.advanceN (t.Advance).2 k

/-- A solder pad of a part (`struct Pad` of `board.h`, which is not among the
sources).  Modelled from the spec: a pad is a sub-position on the part with an
area used for the dispense duration (§3 "Pad"). -/
structure Pad where
  pos : ℚ × ℚ
  area : ℚ
deriving DecidableEq

/-- A board part (`struct Part` of `board.h`): identity, position and pads.
Fields not consumed by the verified code paths (rotation, bounding box) are
elided. -/
structure Part where
  component_name : String
  footprint : String
  value : String
  pos : ℚ × ℚ
  pads : List Pad
deriving DecidableEq

/-- The parsed rpt board, as consumed by the core: its part list. -/
structure Board where
  parts : List Part
deriving DecidableEq

/-- Data of `struct PnPConfig` (`pnp-config.h`): the component→tape binding table plus
board origin, board top and bed level.  `tapes` is the store of tape objects;
`tape_for_component` maps a `footprint@value` key to an index into that store
(embedding the `Tape*` pointers, several keys possibly aliasing one tape). -/
structure PnPConfig where
  tapes : List Tape
  tape_for_component : List (String × ℕ)
  board_origin : ℚ × ℚ
  board_top : ℚ
  bed_level : ℚ
deriving DecidableEq

/-- The `footprint + "@" + value` key used throughout the sources. -/
def partKey (p : Part) : String := p.footprint ++ "@" ++ p.value

/-- Lookup `FindTapeForPart(config, part)`: exact-match lookup of `footprint@value`
in `tape_for_component`; `NULL` (here `none`) when absent. -/
def FindTapeForPart (c : PnPConfig) (p : Part) : Option ℕ :=
  List.lookup (partKey p) c.tape_for_component

/-- Dereference a tape index in the store. -/
def tapeAt (c : PnPConfig) (i : ℕ) : Option Tape := c.tapes[i]?

/-- The tape object found for a part, if any. -/
def tapeForPart (c : PnPConfig) (p : Part) : Option Tape :=
  (FindTapeForPart c p).bind (tapeAt c)

/-- Height resolution `ComponentHeightComparator::GetHeight`: `-1` when no tape is bound,
otherwise the bound tape's height. -/
def GetHeight (c : PnPConfig) (p : Part) : ℚ :=
  match tapeForPart c p with
  | none => -1
  | some t => t.height

/-- Comparator `ComponentHeightComparator::operator()`: strict comparison by resolved
height, ties broken by `component_name`.  The C++ body starts with a pointer
self-comparison `if (a == b) return 0;`; for value-equal arguments the general
path also returns `false` (equal heights, `name < name` false), so that branch
is redundant in this value-level embedding. -/
def ComponentHeightLt (c : PnPConfig) (a b : Part) : Bool :=
  if GetHeight c a = GetHeight c b
  then decide (a.component_name < b.component_name)
  else decide (GetHeight c a < GetHeight c b)

/-- The non-strict order induced by the comparator (`!comp(b, a)`), i.e. the
order in which `std::sort` leaves the list. -/
def partLe (c : PnPConfig) (a b : Part) : Prop := ComponentHeightLt c b a = false

instance (c : PnPConfig) : DecidableRel (partLe c) := fun a b => by
  unfold partLe; infer_instance

/-- The strict (height, name) lexicographic key order underlying the
comparator. -/
def partKeyLt (c : PnPConfig) (a b : Part) : Prop :=
  GetHeight c a < GetHeight c b ∨
    (GetHeight c a = GetHeight c b ∧ a.component_name < b.component_name)

/-- Postcondition of `std::sort(list.begin(), list.end(), cmp)`: the output is
a permutation of the input, pairwise ordered so that no later element compares
strictly before an earlier one. -/
def stdSortSpec (c : PnPConfig) (input output : List Part) : Prop :=
  output.Perm input ∧ output.Pairwise (partLe c)

/-- The visit order the spec describes: the stable sort of the part list under
the comparator's induced order (Mathlib's `insertionSort` inserts each element
behind none of the earlier, ahead of the later equivalent ones, so it is the
stable sort). -/
def stableVisitOrder (c : PnPConfig) (parts : List Part) : List Part :=
  List.insertionSort (partLe c) parts

/-- One observable action of a pick-and-place / dispense run.  `pick`/`place`
record the tape argument handed to `Machine::PickPart` / `Machine::PlacePart`
(`none` embeds a `NULL` tape pointer).  `warnNoTape` is the
`"No tape for '<name>'"` report of `PickNPlace`; `warnExhausted` is the
operator report of an exhausted-supply pick (modelled from the spec, §4.3:
the pick proceeds but "must be reported to the operator"; the machine backends
that would emit it are not among the sources). -/
inductive Event where
  | pick (p : Part) (tape : Option ℕ)
  | place (p : Part) (tape : Option ℕ)
  | warnNoTape (name : String)
  | warnExhausted (name : String)
  | dispense (pp : Part × Pad)
deriving DecidableEq

/-- Advance the tape stored at index `i` (in-place mutation of the aliased
`Tape` object; `Advance`'s return value is discarded, as in the source). -/
def advanceTapeAt (tapes : List Tape) (i : ℕ) : List Tape :=
  match tapes[i]? with
  | none => tapes
  | some t => tapes.set i (t.Advance).2

/-- The body of `PickNPlace`'s loop, run over the visit-ordered part list,
threading the mutable tape store and emitting the observable events.  Per
part: resolve the tape (only when a config is present), report a missing
binding, pick, report exhaustion (spec-modelled, see `Event`), place, then
`if (tape) tape->Advance();`. -/
def runParts (cfg : Option PnPConfig) : List Tape → List Part → List Event
  | _, [] => []
  | tapes, p :: rest =>
    match cfg with
    | none => Event.pick p none :: Event.place p none :: runParts none tapes rest
    | some c =>
      let idx := FindTapeForPart c p
      let warnNT : List Event :=
        match idx with
        | none => [Event.warnNoTape p.component_name]
        | some _ => []
      let warnEx : List Event :=
        match idx.bind (fun i => tapes[i]?) with
        | none => []
        | some t => if t.count ≤ 0 then [Event.warnExhausted p.component_name] else []
      let tapes' :=
        match idx with
        | none => tapes
        | some i => advanceTapeAt tapes i
      warnNT ++ (Event.pick p idx :: warnEx) ++ (Event.place p idx ::
        runParts (some c) tapes' rest)

/-- The parts whose bound tape is exhausted at the moment they are visited
(threading the same per-visit advance as the run). -/
def exhaustedOccurrences (c : PnPConfig) : List Tape → List Part → List String
  | _, [] => []
  | tapes, p :: rest =>
    match FindTapeForPart c p with
    | none => exhaustedOccurrences c tapes rest
    | some i =>
      (match tapes[i]? with
       | none => []
       | some t => if t.count ≤ 0 then [p.component_name] else []) ++
        exhaustedOccurrences c (advanceTapeAt tapes i) rest

/-- The `(part, tape)` arguments of the `PickPart` calls of a trace. -/
def pickPairsOf : List Event → List (Part × Option ℕ)
  | [] => []
  | Event.pick p t :: tr => (p, t) :: pickPairsOf tr
  | _ :: tr => pickPairsOf tr

/-- The `(part, tape)` arguments of the `PlacePart` calls of a trace. -/
def placePairsOf : List Event → List (Part × Option ℕ)
  | [] => []
  | Event.place p t :: tr => (p, t) :: placePairsOf tr
  | _ :: tr => placePairsOf tr

/-- The missing-binding reports of a trace. -/
def warnNoTapesOf : List Event → List String
  | [] => []
  | Event.warnNoTape s :: tr => s :: warnNoTapesOf tr
  | _ :: tr => warnNoTapesOf tr

/-- The exhausted-supply reports of a trace. -/
def warnExhaustedOf : List Event → List String
  | [] => []
  | Event.warnExhausted s :: tr => s :: warnExhaustedOf tr
  | _ :: tr => warnExhaustedOf tr

/-- The dispensed `(part, pad)` pairs of a trace. -/
def dispensesOf : List Event → List (Part × Pad)
  | [] => []
  | Event.dispense pp :: tr => pp :: dispensesOf tr
  | _ :: tr => dispensesOf tr

/-- The flattening loop of `SolderDispense`: every `(part, pad)` pair across
all parts of the board, in board order. -/
def allPads (board : Board) : List (Part × Pad) :=
  board.parts.flatMap fun part => part.pads.map fun pad => (part, pad)

/-- Machine-space position a dispense visit travels to (board part position
plus pad offset; coordinate composition per spec §4.2). -/
def padPoint (pp : Part × Pad) : ℚ × ℚ :=
  (pp.1.pos.1 + pp.2.pos.1, pp.1.pos.2 + pp.2.pos.2)

/-- Squared Euclidean distance (minimising it minimises the distance). -/
def sqDist (a b : ℚ × ℚ) : ℚ := (a.1 - b.1) ^ 2 + (a.2 - b.2) ^ 2

/-- Select from `x :: xs` the first element whose `padPoint` is nearest to
`cur`, returning it together with the remaining elements in order. -/
def pickNearest (cur : ℚ × ℚ) : Part × Pad → List (Part × Pad) →
    (Part × Pad) × List (Part × Pad)
  | x, [] => (x, [])
  | x, y :: ys =>
    if sqDist cur (padPoint y) < sqDist cur (padPoint x) then
      ((pickNearest cur y ys).1, x :: (pickNearest cur y ys).2)
    else
      ((pickNearest cur x ys).1, y :: (pickNearest cur x ys).2)

/-- Fuelled nearest-unvisited-neighbour loop (fuel = list length). -/
def optimizeGo : ℕ → ℚ × ℚ → List (Part × Pad) → List (Part × Pad)
  | 0, _, _ => []
  | _ + 1, _, [] => []
  | n + 1, cur, x :: xs =>
    (pickNearest cur x xs).1 ::
      optimizeGo n (padPoint (pickNearest cur x xs).1) (pickNearest cur x xs).2

/-- Modelled from the spec: `OptimizeParts` (declared in `rpt2pnp.h`, its
implementation not among the sources) reorders the dispense visits by a
travel-order heuristic; per spec §4.3/§9 a nearest-unvisited-neighbour pass
from the previous point satisfies the binding contract ("a pure reordering:
it must not drop, duplicate, or mutate pads").  The starting reference point
is taken as the machine origin. -/
def OptimizeParts (l : List (Part × Pad)) : List (Part × Pad) :=
  optimizeGo l.length (0, 0) l

/-- Pipeline `SolderDispense`: flatten all `(part, pad)` pairs, reorder them with
`OptimizeParts`, then dispense each in the resulting order. -/
def SolderDispense (board : Board) : List Event :=
  (OptimizeParts (allPads board)).map Event.dispense

/-- Constant `static const float minimum_milliseconds = 50;`. -/
def minimum_milliseconds : ℚ := 50

/-- Constant `static const float area_to_milliseconds = 25;` (mm² to milliseconds). -/
def area_to_milliseconds : ℚ := 25

/-- Default of `main` for the dispense pair, overridden together by a single
`-D<init-ms,area-to-ms>` option: `start_ms = minimum_milliseconds`. -/
def default_start_ms : ℚ := minimum_milliseconds

/-- Default of `main`: `area_ms = area_to_milliseconds`. -/
def default_area_ms : ℚ := area_to_milliseconds

/-- Modelled from the spec: the dispense on-time computed by the GCode
machine backend (not among the sources) is
`duration = max(minimum_ms, start_ms + pad_area_mm2 * area_to_ms_per_mm2)`
(spec §4.3). -/
def dispenseDuration (start_ms area_ms area : ℚ) : ℚ :=
  max minimum_milliseconds (start_ms + area * area_ms)

/-- The minimum taken by `ParseSimplePnPConfiguration`'s cross check: the
fold of `std::min` over every bound tape's height, seeded with
`result->board.top`. -/
def lowestValue (c : PnPConfig) : ℚ :=
  c.tape_for_component.foldl
    (fun acc kv =>
      match c.tapes[kv.2]? with
      | none => acc
      | some t => min acc t.height)
    c.board_top

/-- The cross check ending `ParseSimplePnPConfiguration`: the constructed
configuration is rejected (`return NULL`) when anything lies strictly below
bed level, and returned unchanged otherwise.  (The preceding `fgets` loop is
textual-configuration I/O, out of the spec's core scope; the check runs on
whatever state it built.) -/
def simpleConfigCrossCheck (c : PnPConfig) : Option PnPConfig :=
  if lowestValue c < c.bed_level then none else some c

/-- One pre-tokenised line of the declarative configuration file, as consumed
by `ParsePnPConfiguration`'s loop.  Optional third floats (`Tape-Tray-Origin:`
and board `origin:` accept two or three values, `sscanf` leaving the third
variable untouched when absent) are carried as `Option ℚ`.  `comment` stands
for an empty or `#`-starting token (skipped); `invalid` stands for an unknown
token or a payload `sscanf` failed on (parse error). -/
inductive ConfigLine where
  | board
  | tapeTrayOrigin (x y : ℚ) (z : Option ℚ)
  | tape (names : List String)
  | origin (x y : ℚ) (z : Option ℚ)
  | spacing (x y : ℚ)
  | angle (a : ℚ)
  | count (n : ℤ)
  | comment
  | invalid
deriving DecidableEq

/-- Mutable state of `ParsePnPConfiguration`'s loop: the tape store and
binding map under construction, the current tape (`Tape* current_tape`,
embedded as an index), the tape-tray frame, and the board frame. -/
structure ParseState where
  tapes : List Tape
  bindings : List (String × ℕ)
  current : Option ℕ
  tray_origin : ℚ × ℚ
  tray_height : ℚ
  board_origin : ℚ × ℚ
  board_top : ℚ
deriving DecidableEq

/-- Initial parser state (`tape_tray_origin` zero, `tape_tray_height = 0`). -/
def ParseState.init : ParseState := ⟨[], [], none, (0, 0), 0, (0, 0), 0⟩

/-- Apply a mutation to the tape stored at index `i`. -/
def updateTapeAt (tapes : List Tape) (i : ℕ) (f : Tape → Tape) : List Tape :=
  match tapes[i]? with
  | none => tapes
  | some t => tapes.set i (f t)

/-- The loop of `ParsePnPConfiguration` over pre-tokenised lines.  Faithful to
the source: `Board:`/`Tape-Tray-Origin:` close the current tape; `Tape:`
allocates a fresh tape with `SetAngle(90)` and registers every listed name to
it; `origin:` is tape-relative (three values required) with a current tape and
the board origin (third value optional) otherwise; `spacing:` requires a
current tape and rejects the zero vector; `angle:`/`count:` require a current
tape; any parse problem returns `NULL` (`none`).  On success `bed_level` is
set to `0`. -/
def parseLines : ParseState → List ConfigLine → Option PnPConfig
  | st, [] =>
    some ⟨st.tapes, st.bindings, st.board_origin, st.board_top, 0⟩
  | st, l :: rest =>
    match l with
    | ConfigLine.comment => parseLines st rest
    | ConfigLine.board => parseLines { st with current := none } rest
    | ConfigLine.tapeTrayOrigin x y z =>
      parseLines
        { st with
          current := none
          tray_origin := (x, y)
          tray_height := z.getD st.tray_height } rest
    | ConfigLine.tape names =>
      let idx := st.tapes.length
      parseLines
        { st with
          tapes := st.tapes ++ [Tape.init.SetAngle 90]
          bindings := st.bindings ++ names.map fun nm => (nm, idx)
          current := some idx } rest
    | ConfigLine.origin x y z =>
      match st.current with
      | some i =>
        match z with
        | none => none
        | some zv =>
          parseLines
            { st with
              tapes := updateTapeAt st.tapes i fun t =>
                t.SetFirstComponentPosition (x + st.tray_origin.1)
                  (y + st.tray_origin.2) (zv + st.tray_height) } rest
      | none =>
        parseLines
          { st with
            board_origin := (x, y)
            board_top := z.getD st.board_top } rest
    | ConfigLine.spacing x y =>
      match st.current with
      | none => none
      | some i =>
        if x = 0 ∧ y = 0 then none
        else
          parseLines
            { st with
              tapes := updateTapeAt st.tapes i fun t =>
                t.SetComponentSpacing x y } rest
    | ConfigLine.angle a =>
      match st.current with
      | none => none
      | some i =>
        parseLines
          { st with tapes := updateTapeAt st.tapes i fun t => t.SetAngle a } rest
    | ConfigLine.count n =>
      match st.current with
      | none => none
      | some i =>
        parseLines
          { st with
            tapes := updateTapeAt st.tapes i fun t => t.SetNumberComponents n }
          rest
    | ConfigLine.invalid => none

/-- Parser `ParsePnPConfiguration` over a pre-tokenised file. -/
def ParsePnPConfiguration (lines : List ConfigLine) : Option PnPConfig :=
  parseLines ParseState.init lines

/-! Concrete sample data used by witnesses and counterexamples. -/

/-- A tape at `(0, 0, 2)`, spacing `(4, 0)`, two components left (the spec's
end-to-end scenario). -/
def tapeSample : Tape := ⟨0, 0, 2, 4, 0, 0, 2⟩

/-- A one-component tape at the origin with spacing `(1, 0)`. -/
def tapeShort : Tape := ⟨0, 0, 0, 1, 0, 0, 1⟩

/-- An exhausted tape with nonzero position, spacing and angle. -/
def tapeExhausted : Tape := ⟨3, 4, 5, 1, 2, 6, 0⟩

/-- A config with two bound tapes: heights 5 (key `f1@v1`) and 2 (`f2@v2`). -/
def cfgSample : PnPConfig :=
  ⟨[⟨10, 10, 5, 4, 0, 90, 10⟩, ⟨0, 20, 2, 4, 0, 90, 2⟩],
   [("f1@v1", 0), ("f2@v2", 1)], (0, 0), 16 / 10, 0⟩

/-- Part C3, bound (via `f1@v1`) to the height-5 tape of `cfgSample`. -/
def partC3 : Part := ⟨"C3", "f1", "v1", (1, 1), []⟩

/-- Part C1, bound (via `f2@v2`) to the height-2 tape of `cfgSample`. -/
def partC1 : Part := ⟨"C1", "f2", "v2", (2, 2), []⟩

/-- Part C2, bound (via `f2@v2`) to the height-2 tape of `cfgSample`. -/
def partC2 : Part := ⟨"C2", "f2", "v2", (3, 3), []⟩

/-- A part whose `footprint@value` key (`fx@vx`) has no binding in either
sample config. -/
def partFree : Part := ⟨"A1", "fx", "vx", (4, 4), []⟩

/-- A config binding `fb@vb` to a single tape of height `-2` (constructible
through the full parser, which never validates heights). -/
def cfgNeg : PnPConfig := ⟨[⟨0, 0, -2, 1, 0, 90, 5⟩], [("fb@vb", 0)], (0, 0), 16 / 10, 0⟩

/-- A part bound to the height `-2` tape of `cfgNeg`. -/
def partBound : Part := ⟨"B1", "fb", "vb", (5, 5), []⟩

/-- A config whose single bound tape sits exactly at bed level (height 0,
bed 0) under a board top of 5. -/
def cfgBoundary : PnPConfig := ⟨[⟨0, 0, 0, 1, 0, 0, 5⟩], [("f@v", 0)], (0, 0), 5, 0⟩

/-- A config whose single bound tape sits exactly at bed level but whose
board top lies below bed level. -/
def cfgTopLow : PnPConfig := ⟨[⟨0, 0, 0, 1, 0, 0, 5⟩], [("f@v", 0)], (0, 0), -1, 0⟩

/-! Theorems. -/

/-- Fields of a tape after `k ≤ n` advances from initial count `n`: the
position has been translated `k` times by the spacing, nothing else moved,
and the count is `n - k`. -/
theorem tape_advanceN_fields (k : ℕ) :
    ∀ (t : Tape) (n : ℕ), t.count = (n : ℤ) → k ≤ n →
      (t.advanceN k).x = t.x + k * t.dx ∧
      (t.advanceN k).y = t.y + k * t.dy ∧
      (t.advanceN k).z = t.z ∧
      (t.advanceN k).dx = t.dx ∧
      (t.advanceN k).dy = t.dy ∧
      (t.advanceN k).angle = t.angle ∧
      (t.advanceN k).count = (n : ℤ) - (k : ℤ) := by
  induction k with
  | zero =>
    intro t n h _
    simp [Tape.advanceN, h]
  | succ k ih =>
    intro t n h hk
    obtain ⟨m, rfl⟩ : ∃ m, n = m + 1 := ⟨n - 1, by omega⟩
    have hpos : ¬ t.count ≤ 0 := by rw [h]; push_cast; omega
    have hstep : (t.Advance).2 =
        { t with x := t.x + t.dx, y := t.y + t.dy, count := t.count - 1 } := by
      simp [Tape.Advance, hpos]
    have hcount : ((t.Advance).2).count = (m : ℤ) := by rw [hstep]; simp [h]
    have hk' : k ≤ m := by omega
    obtain ⟨hx, hy, hz, hdx, hdy, hangle, hcnt⟩ := ih (t.Advance).2 m hcount hk'
    have hun : t.advanceN (k + 1) = ((t.Advance).2).advanceN k := rfl
    refine ⟨?_, ?_, ?_, ?_, ?_, ?_, ?_⟩ <;>
      rw [hun]
    · rw [hx, hstep]; push_cast; ring
    · rw [hy, hstep]; push_cast; ring
    · rw [hz, hstep]
    · rw [hdx, hstep]
    · rw [hdy, hstep]
    · rw [hangle, hstep]
    · rw [hcnt]; push_cast; ring

/-- Claim C1 (amended): starting from a tape with remaining count `n ≥ 0`,
first-pickup position `p` and spacing `d`, each of the first `n` `Advance`
calls succeeds; after `k < n` advances `GetPos` returns `p + k·d`; after the
`n`-th advance the count is `0`, so `GetPos` fails and the `(n+1)`-th
`Advance` fails, leaving the whole state unchanged — the exhausted state is
terminal under `GetPos` and `Advance` (the `SetNumberComponents` setter can
still overwrite the count, which is why the original "no operation restores a
positive count" does not hold). -/
theorem c1_tape_feed_spec (t : Tape) (n : ℕ) (h : t.count = (n : ℤ)) :
    (∀ k, k < n → ((t.advanceN k).Advance).1 = true) ∧
    (∀ k, k < n →
      (t.advanceN k).GetPos = some (t.x + k * t.dx, t.y + k * t.dy)) ∧
    (t.advanceN n).GetPos = none ∧
    ((t.advanceN n).Advance).1 = false ∧
    ((t.advanceN n).Advance).2 = t.advanceN n := by
  have hn := tape_advanceN_fields n t n h le_rfl
  have hterm : (t.advanceN n).count ≤ 0 := by rw [hn.2.2.2.2.2.2]; omega
  refine ⟨?_, ?_, ?_, ?_, ?_⟩
  · intro k hk
    have hc := (tape_advanceN_fields k t n h hk.le).2.2.2.2.2.2
    have : ¬ (t.advanceN k).count ≤ 0 := by rw [hc]; omega
    simp [Tape.Advance, this]
  · intro k hk
    obtain ⟨hx, hy, _, _, _, _, hc⟩ := tape_advanceN_fields k t n h hk.le
    have : ¬ (t.advanceN k).count ≤ 0 := by rw [hc]; omega
    simp [Tape.GetPos, this, hx, hy]
  · simp [Tape.GetPos, hterm]
  · simp [Tape.Advance, hterm]
  · simp [Tape.Advance, hterm]

/-- Witness for C1 at the spec's end-to-end tape (count 2, spacing `(4,0)`):
both hypotheses hold and after two advances `GetPos` and `Advance` fail. -/
theorem c1_tape_feed_witness :
    tapeSample.count = ((2 : ℕ) : ℤ) ∧
    (tapeSample.advanceN 2).GetPos = none ∧
    ((tapeSample.advanceN 2).Advance).1 = false := by
  have h := c1_tape_feed_spec tapeSample 2 (by decide)
  exact ⟨by decide, h.2.2.1, h.2.2.2.1⟩

/-- Counterexample to C1 as stated: for a tape with count `n = 1` at `(0,0)`
with spacing `(1,0)`, the single (successful) advance exhausts the tape, after
which `GetPos` fails instead of returning `p + 1·d = (1,0)`; moreover
`SetNumberComponents` does restore a positive count on the exhausted tape. -/
theorem c1_tape_feed_counterexample :
    (tapeShort.Advance).1 = true ∧
    ((tapeShort.Advance).2).GetPos = none ∧
    ((tapeShort.Advance).2).GetPos ≠
      some (tapeShort.x + 1 * tapeShort.dx, tapeShort.y + 1 * tapeShort.dy) ∧
    0 < (((tapeShort.Advance).2).SetNumberComponents 5).count := by
  refine ⟨by decide, by decide, ?_, by decide⟩
  decide

/-- Claim C8: a successful `Advance` translates only `x` and `y` (by the
spacing vector) and decrements the count; `z` is untouched by `Advance`,
`SetComponentSpacing`, `SetAngle` and `SetNumberComponents` — of the
operations, only `SetFirstComponentPosition` writes `z`. -/
theorem c8_advance_preserves_z (t : Tape) (a b q : ℚ) (n : ℤ)
    (h : (t.Advance).1 = true) :
    (t.Advance).2.z = t.z ∧
    (t.Advance).2.x = t.x + t.dx ∧
    (t.Advance).2.y = t.y + t.dy ∧
    (t.Advance).2.dx = t.dx ∧
    (t.Advance).2.dy = t.dy ∧
    (t.Advance).2.angle = t.angle ∧
    (t.Advance).2.count = t.count - 1 ∧
    (t.SetComponentSpacing a b).z = t.z ∧
    (t.SetAngle q).z = t.z ∧
    (t.SetNumberComponents n).z = t.z := by
  by_cases hc : t.count ≤ 0
  · simp [Tape.Advance, hc] at h
  · simp [Tape.Advance, Tape.SetComponentSpacing, Tape.SetAngle,
      Tape.SetNumberComponents, hc]

/-- Witness for C8 at the sample tape (count 2, so the advance succeeds). -/
theorem c8_advance_preserves_z_witness :
    (tapeSample.Advance).1 = true ∧
    (tapeSample.Advance).2.z = tapeSample.z ∧
    (tapeSample.Advance).2.x = tapeSample.x + tapeSample.dx := by
  have h := c8_advance_preserves_z tapeSample 1 2 3 4 (by decide)
  exact ⟨by decide, h.1, h.2.1⟩

/-- Claim C9: on an exhausted tape (count ≤ 0) `GetPos` fails and `Advance`
fails atomically, returning the very same state (position, spacing, angle,
count and the derived slant angle all unchanged); and a count that is
nonnegative stays nonnegative through `Advance`. -/
theorem c9_exhausted_atomic (t : Tape) (h : t.count ≤ 0) :
    t.GetPos = none ∧
    t.Advance = (false, t) ∧
    (t.Advance).2.slantAngle = t.slantAngle ∧
    (∀ u : Tape, 0 ≤ u.count → 0 ≤ (u.Advance).2.count) := by
  have hadv : t.Advance = (false, t) := by simp [Tape.Advance, h]
  refine ⟨by simp [Tape.GetPos, h], hadv, by rw [hadv], ?_⟩
  intro u hu
  by_cases hc : u.count ≤ 0
  · simpa [Tape.Advance, hc] using hu
  · simp only [Tape.Advance, hc, if_false]
    omega

/-- Witness for C9 at a concrete exhausted tape. -/
theorem c9_exhausted_atomic_witness :
    tapeExhausted.count ≤ 0 ∧
    tapeExhausted.GetPos = none ∧
    tapeExhausted.Advance = (false, tapeExhausted) ∧
    0 ≤ ((Tape.init).Advance).2.count := by
  have h := c9_exhausted_atomic tapeExhausted (by decide)
  exact ⟨by decide, h.1, h.2.1, h.2.2.2 Tape.init (by decide)⟩

/-- Selecting the nearest pad keeps exactly the input elements: the chosen
element together with the remainder is a permutation of the input. -/
theorem pickNearest_perm (cur : ℚ × ℚ) :
    ∀ (xs : List (Part × Pad)) (x : Part × Pad),
      ((pickNearest cur x xs).1 :: (pickNearest cur x xs).2).Perm (x :: xs) := by
  intro xs
  induction xs with
  | nil => intro x; simp [pickNearest]
  | cons y ys ih =>
    intro x
    by_cases hlt : sqDist cur (padPoint y) < sqDist cur (padPoint x)
    · simp only [pickNearest, if_pos hlt]
      exact (List.Perm.swap x (pickNearest cur y ys).1
        (pickNearest cur y ys).2).trans ((ih y).cons x)
    · simp only [pickNearest, if_neg hlt]
      exact ((List.Perm.swap y (pickNearest cur x ys).1
        (pickNearest cur x ys).2).trans ((ih x).cons y)).trans
        (List.Perm.swap x y ys)

/-- The remainder returned by `pickNearest` has the length of the input
list. -/
theorem pickNearest_length (cur : ℚ × ℚ) :
    ∀ (xs : List (Part × Pad)) (x : Part × Pad),
      (pickNearest cur x xs).2.length = xs.length := by
  intro xs
  induction xs with
  | nil => intro x; simp [pickNearest]
  | cons y ys ih =>
    intro x
    by_cases hlt : sqDist cur (padPoint y) < sqDist cur (padPoint x) <;>
      simp [pickNearest, hlt, ih]

/-- The fuelled nearest-neighbour loop is a pure reordering whenever the fuel
covers the list. -/
theorem optimizeGo_perm :
    ∀ (fuel : ℕ) (cur : ℚ × ℚ) (l : List (Part × Pad)),
      l.length ≤ fuel → (optimizeGo fuel cur l).Perm l := by
  intro fuel
  induction fuel with
  | zero =>
    intro cur l hl
    have : l = [] := List.eq_nil_of_length_eq_zero (Nat.le_zero.mp hl)
    simp [this, optimizeGo]
  | succ n ih =>
    intro cur l hl
    match l with
    | [] => simp [optimizeGo]
    | x :: xs =>
      have hlen : (pickNearest cur x xs).2.length ≤ n := by
        rw [pickNearest_length]
        simpa using hl
      have hstep : (optimizeGo (n + 1) cur (x :: xs)).Perm
          ((pickNearest cur x xs).1 :: (pickNearest cur x xs).2) :=
        (ih _ _ hlen).cons _
      exact hstep.trans (pickNearest_perm cur xs x)

/-- Dispensing each pair of a list dispenses exactly that list. -/
theorem dispensesOf_map (l : List (Part × Pad)) :
    dispensesOf (l.map Event.dispense) = l := by
  induction l with
  | nil => rfl
  | cons x xs ih => simp [dispensesOf, ih]

/-- Claim C4: solder dispensing flattens every `(part, pad)` pair of the board
into one collection (`allPads`, in board order), reorders it with a pure
reordering — the output is a permutation of the input, hence equal as a
multiset, with nothing dropped, duplicated or mutated, for lists of any
length (0, 1, or hundreds of pads) — and `Dispense` is invoked exactly once
per pair, in the optimized order. -/
theorem c4_dispense_pure_reordering (board : Board) :
    (∀ l : List (Part × Pad), (OptimizeParts l).Perm l) ∧
    (OptimizeParts (allPads board)).Perm (allPads board) ∧
    dispensesOf (SolderDispense board) = OptimizeParts (allPads board) := by
  have hperm : ∀ l : List (Part × Pad), (OptimizeParts l).Perm l := fun l =>
    optimizeGo_perm l.length (0, 0) l le_rfl
  refine ⟨hperm, hperm _, ?_⟩
  exact dispensesOf_map _

/-- Claim C7 (amended): the run constants default to 50 ms minimum and
25 ms/mm², the dispense on-time is
`max(minimum_ms, start_ms + area · area_to_ms)`, which is never below the
minimum for any area (including 0), and is monotonically non-decreasing in
the pad area whenever the area coefficient is nonnegative (as it is by
default; a negative coefficient supplied via `-D` breaks monotonicity, see
the counterexample). -/
theorem c7_dispense_duration_spec (start_ms area_ms a1 a2 : ℚ)
    (hA : 0 ≤ area_ms) (h12 : a1 ≤ a2) :
    minimum_milliseconds = 50 ∧
    area_to_milliseconds = 25 ∧
    default_start_ms = minimum_milliseconds ∧
    default_area_ms = area_to_milliseconds ∧
    minimum_milliseconds ≤ dispenseDuration start_ms area_ms a1 ∧
    dispenseDuration start_ms area_ms a1 ≤ dispenseDuration start_ms area_ms a2 := by
  refine ⟨rfl, rfl, rfl, rfl, le_max_left _ _, ?_⟩
  have hmul : a1 * area_ms ≤ a2 * area_ms :=
    mul_le_mul_of_nonneg_right h12 hA
  exact max_le_max le_rfl (add_le_add_left hmul start_ms)

/-- Witness for C7 at the default constants and areas 0 and 2. -/
theorem c7_dispense_duration_witness :
    ((0 : ℚ) ≤ 25 ∧ (0 : ℚ) ≤ 2) ∧
    minimum_milliseconds ≤ dispenseDuration 50 25 0 ∧
    dispenseDuration 50 25 0 ≤ dispenseDuration 50 25 2 := by
  have h := c7_dispense_duration_spec 50 25 0 2 (by norm_num) (by norm_num)
  exact ⟨⟨by norm_num, by norm_num⟩, h.2.2.2.2.1, h.2.2.2.2.2⟩

/-- Counterexample to C7 as stated: with the startup override `-D100,-25`
(start 100 ms, −25 ms/mm², both accepted by the option parser), the duration
at area 0 is 100 ms but at area 2 mm² it is 50 ms — strictly decreasing in
the area, so the claimed monotonicity for every fixed `start_ms`/`area_ms`
pair fails (the never-below-minimum half still holds). -/
theorem c7_dispense_duration_counterexample :
    dispenseDuration 100 (-25) 0 = 100 ∧
    dispenseDuration 100 (-25) 2 = 50 ∧
    ¬ dispenseDuration 100 (-25) 0 ≤ dispenseDuration 100 (-25) 2 := by
  refine ⟨?_, ?_, ?_⟩ <;> norm_num [dispenseDuration, minimum_milliseconds]

/-- The four observable projections of the pick-and-place loop, for any tape
store and visit list: every visited part is picked exactly once and placed
exactly once, in visit order, each with the tape its key resolves to; one
missing-binding report is emitted per part without a binding; one exhaustion
report is emitted per part whose bound tape is exhausted when visited. -/
theorem runParts_projections (c : PnPConfig) :
    ∀ (visit : List Part) (tapes : List Tape),
      pickPairsOf (runParts (some c) tapes visit) =
        visit.map (fun p => (p, FindTapeForPart c p)) ∧
      placePairsOf (runParts (some c) tapes visit) =
        visit.map (fun p => (p, FindTapeForPart c p)) ∧
      warnNoTapesOf (runParts (some c) tapes visit) =
        (visit.filter fun p => (FindTapeForPart c p).isNone).map
          Part.component_name ∧
      warnExhaustedOf (runParts (some c) tapes visit) =
        exhaustedOccurrences c tapes visit := by
  intro visit
  induction visit with
  | nil =>
    intro tapes
    simp [runParts, pickPairsOf, placePairsOf, warnNoTapesOf, warnExhaustedOf,
      exhaustedOccurrences]
  | cons p rest ih =>
    intro tapes
    cases hidx : FindTapeForPart c p with
    | none =>
      obtain ⟨h1, h2, h3, h4⟩ := ih tapes
      refine ⟨?_, ?_, ?_, ?_⟩ <;>
        simp [runParts, hidx, pickPairsOf, placePairsOf, warnNoTapesOf,
          warnExhaustedOf, exhaustedOccurrences, List.filterMap_append,
          h1, h2, h3, h4]
    | some i =>
      obtain ⟨h1, h2, h3, h4⟩ := ih (advanceTapeAt tapes i)
      cases hg : tapes[i]? with
      | none =>
        refine ⟨?_, ?_, ?_, ?_⟩ <;>
          simp [runParts, hidx, hg, pickPairsOf, placePairsOf, warnNoTapesOf,
            warnExhaustedOf, exhaustedOccurrences, List.filterMap_append,
            h1, h2, h3, h4]
      | some t =>
        by_cases hc : t.count ≤ 0 <;>
          refine ⟨?_, ?_, ?_, ?_⟩ <;>
            simp [runParts, hidx, hg, hc, pickPairsOf, placePairsOf,
              warnNoTapesOf, warnExhaustedOf, exhaustedOccurrences,
              List.filterMap_append, h1, h2, h3, h4]

/-- Claim C3: tape exhaustion never halts a pick-and-place run — for every
config, tape store and visit list, `PickPart` and `PlacePart` are invoked for
every part in order (also for every part after an exhausted pick), and one
exhaustion report is emitted per occurrence (a warning, not an abort; the
report itself is the spec-modelled machine behaviour, since `PickNPlace`
discards `Advance`'s return value and the machine backends are not among the
sources). -/
theorem c3_exhaustion_never_halts (c : PnPConfig) (tapes : List Tape)
    (visit : List Part) :
    pickPairsOf (runParts (some c) tapes visit) =
      visit.map (fun p => (p, FindTapeForPart c p)) ∧
    placePairsOf (runParts (some c) tapes visit) =
      visit.map (fun p => (p, FindTapeForPart c p)) ∧
    warnExhaustedOf (runParts (some c) tapes visit) =
      exhaustedOccurrences c tapes visit := by
  obtain ⟨h1, h2, _, h4⟩ := runParts_projections c visit tapes
  exact ⟨h1, h2, h4⟩

/-- Claim C6 (amended): a part's tape is resolved by exact match of
`footprint@value`; with no matching entry the part resolves to height `-1`
(sorting before any part of resolved height above `-1`, though not
necessarily first — see the counterexample), the gap is reported once per
occurrence, and the part is still picked and placed, with no tape. -/
theorem c6_missing_binding_degraded (c : PnPConfig) (tapes : List Tape)
    (visit : List Part) (p : Part) (h : FindTapeForPart c p = none) :
    (FindTapeForPart c p = none ↔
      ∀ kv ∈ c.tape_for_component, partKey p ≠ kv.1) ∧
    GetHeight c p = -1 ∧
    warnNoTapesOf (runParts (some c) tapes visit) =
      (visit.filter fun q => (FindTapeForPart c q).isNone).map
        Part.component_name ∧
    pickPairsOf (runParts (some c) tapes visit) =
      visit.map (fun q => (q, FindTapeForPart c q)) ∧
    placePairsOf (runParts (some c) tapes visit) =
      visit.map (fun q => (q, FindTapeForPart c q)) := by
  obtain ⟨h1, h2, h3, _⟩ := runParts_projections c visit tapes
  refine ⟨?_, ?_, h3, h1, h2⟩
  · simp [FindTapeForPart, List.lookup_eq_none_iff, ne_comm]
  · simp [GetHeight, tapeForPart, h]

/-- Witness for C6: `partFree` has no binding in `cfgSample`; it resolves to
height `-1`, is reported, and is still picked and placed tapeless. -/
theorem c6_missing_binding_witness :
    FindTapeForPart cfgSample partFree = none ∧
    GetHeight cfgSample partFree = -1 ∧
    warnNoTapesOf
        (runParts (some cfgSample) cfgSample.tapes [partFree, partC1]) =
      ([partFree, partC1].filter
        fun q => (FindTapeForPart cfgSample q).isNone).map
          Part.component_name ∧
    pickPairsOf (runParts (some cfgSample) cfgSample.tapes [partFree, partC1]) =
      [partFree, partC1].map (fun q => (q, FindTapeForPart cfgSample q)) := by
  have h := c6_missing_binding_degraded cfgSample cfgSample.tapes
    [partFree, partC1] partFree (by decide)
  exact ⟨by decide, h.2.1, h.2.2.1, h.2.2.2.1⟩

/-- Counterexample to C6 (and to "height −1 sorts first"): in `cfgNeg` the
bound part `partBound` resolves to height `-2`, so the comparator orders it
strictly before the unbound `partFree` (height `-1`) — a part with no tape
binding does not always sort first. -/
theorem c6_missing_binding_counterexample :
    FindTapeForPart cfgNeg partFree = none ∧
    GetHeight cfgNeg partFree = -1 ∧
    GetHeight cfgNeg partBound < GetHeight cfgNeg partFree ∧
    ComponentHeightLt cfgNeg partBound partFree = true := by
  refine ⟨by decide, by decide, by decide, by decide⟩

/-- The cross-check fold never exceeds its seed. -/
theorem lowestValue_foldl_le_init (c : PnPConfig) :
    ∀ (l : List (String × ℕ)) (init : ℚ),
      l.foldl
        (fun acc kv =>
          match c.tapes[kv.2]? with
          | none => acc
          | some t => min acc t.height)
        init ≤ init := by
  intro l
  induction l with
  | nil => intro init; simp
  | cons kv l ih =>
    intro init
    refine le_trans (ih _) ?_
    cases hg : c.tapes[kv.2]? with
    | none => simp [hg]
    | some t => simp [hg, min_le_left]

/-- The cross-check fold is bounded by the height of every bound tape it
visits. -/
theorem lowestValue_foldl_le_height (c : PnPConfig) :
    ∀ (l : List (String × ℕ)) (init : ℚ) (nm : String) (i : ℕ) (t : Tape),
      (nm, i) ∈ l → c.tapes[i]? = some t →
      l.foldl
        (fun acc kv =>
          match c.tapes[kv.2]? with
          | none => acc
          | some t => min acc t.height)
        init ≤ t.height := by
  intro l
  induction l with
  | nil => intro init nm i t hmem; simp at hmem
  | cons kv l ih =>
    intro init nm i t hmem hg
    rcases List.mem_cons.mp hmem with heq | hmem'
    · subst heq
      refine le_trans (lowestValue_foldl_le_init c l _) ?_
      simp [hg, min_le_right]
    · exact ih _ nm i t hmem' hg

/-- The cross-check fold stays above any bound below its seed and below every
bound tape height. -/
theorem lowestValue_foldl_ge (c : PnPConfig) :
    ∀ (l : List (String × ℕ)) (init : ℚ) (b : ℚ), b ≤ init →
      (∀ kv ∈ l, ∀ t : Tape, c.tapes[kv.2]? = some t → b ≤ t.height) →
      b ≤ l.foldl
        (fun acc kv =>
          match c.tapes[kv.2]? with
          | none => acc
          | some t => min acc t.height)
        init := by
  intro l
  induction l with
  | nil => intro init b hb _; simpa using hb
  | cons kv l ih =>
    intro init b hb hall
    refine ih _ b ?_ fun kv2 h2 t ht => hall kv2 (List.mem_cons_of_mem kv h2) t ht
    cases hg : c.tapes[kv.2]? with
    | none => simpa [hg] using hb
    | some t =>
      have hht := hall kv (List.mem_cons_self kv l) t hg
      simpa [hg] using le_min hb hht

/-- Claim C5 (amended): the calibration-config cross check rejects (returns
`NULL`) whenever some bound tape's resolved pickup height is strictly below
bed level, and also whenever the board top is below bed level (the check
compares `min(board.top, bound tape heights)` against bed level); a
configuration whose board top and every bound tape height are at or above
bed level — in particular one whose lowest bound tape sits exactly at bed
level — is accepted. -/
theorem c5_bed_level_cross_check (c : PnPConfig) :
    (∀ (nm : String) (i : ℕ) (t : Tape),
      (nm, i) ∈ c.tape_for_component → c.tapes[i]? = some t →
      t.height < c.bed_level → simpleConfigCrossCheck c = none) ∧
    (c.board_top < c.bed_level → simpleConfigCrossCheck c = none) ∧
    (c.bed_level ≤ c.board_top →
      (∀ kv ∈ c.tape_for_component, ∀ t : Tape,
        c.tapes[kv.2]? = some t → c.bed_level ≤ t.height) →
      simpleConfigCrossCheck c = some c) := by
  refine ⟨?_, ?_, ?_⟩
  · intro nm i t hmem hg hlt
    have hle : lowestValue c ≤ t.height :=
      lowestValue_foldl_le_height c _ _ nm i t hmem hg
    simp [simpleConfigCrossCheck, lt_of_le_of_lt hle hlt]
  · intro hlt
    have hle : lowestValue c ≤ c.board_top := lowestValue_foldl_le_init c _ _
    simp [simpleConfigCrossCheck, lt_of_le_of_lt hle hlt]
  · intro htop hall
    have hge : c.bed_level ≤ lowestValue c :=
      lowestValue_foldl_ge c _ _ _ htop hall
    simp [simpleConfigCrossCheck, not_lt.mpr hge]

/-- Witness for C5: `cfgBoundary`'s single bound tape sits exactly at bed
level (height 0 = bed 0) and the configuration is accepted. -/
theorem c5_bed_level_cross_check_witness :
    cfgBoundary.bed_level = 0 ∧
    cfgBoundary.tapes.map Tape.height = [0] ∧
    simpleConfigCrossCheck cfgBoundary = some cfgBoundary := by
  refine ⟨by decide, by decide, ?_⟩
  refine (c5_bed_level_cross_check cfgBoundary).2.2 (by decide) ?_
  intro kv hkv t ht
  simp only [cfgBoundary, List.mem_singleton] at hkv
  subst hkv
  simp only [cfgBoundary, List.getElem?_cons_zero, Option.some.injEq] at ht
  subst ht
  decide

/-- Counterexample to C5 as stated: in `cfgTopLow` the lowest bound-tape
height equals bed level exactly (0 = 0), yet construction fails, because the
check also folds `board.top` (here −1) into the minimum — equality of the
lowest bound-tape height with bed level alone does not imply acceptance. -/
theorem c5_bed_level_cross_check_counterexample :
    cfgTopLow.tapes.map Tape.height = [0] ∧
    cfgTopLow.bed_level = 0 ∧
    simpleConfigCrossCheck cfgTopLow = none := by
  refine ⟨by decide, by decide, by decide⟩

/-- A zero-spacing line anywhere in the input makes the parser loop fail:
every earlier line either already fails or recurses, and at the line itself
both the no-current-tape path and the `x == 0 && y == 0` check return
`NULL`. -/
theorem parseLines_zero_spacing :
    ∀ (lines : List ConfigLine) (st : ParseState),
      ConfigLine.spacing 0 0 ∈ lines → parseLines st lines = none := by
  intro lines
  induction lines with
  | nil => intro st h; simp at h
  | cons l rest ih =>
    intro st h
    obtain ⟨tps, bnd, cur, tro, trh, bo, bt⟩ := st
    rcases List.mem_cons.mp h with heq | hmem
    · subst heq
      cases cur with
      | none => rfl
      | some i => simp [parseLines]
    · cases l with
      | comment => exact ih _ hmem
      | board => exact ih _ hmem
      | tapeTrayOrigin x y z => exact ih _ hmem
      | tape names => exact ih _ hmem
      | origin x y z =>
        cases cur with
        | none => exact ih _ hmem
        | some i =>
          cases z with
          | none => rfl
          | some zv => exact ih _ hmem
      | spacing x y =>
        cases cur with
        | none => rfl
        | some i =>
          by_cases hxy : x = 0 ∧ y = 0
          · simp [parseLines, hxy]
          · simp only [parseLines, if_neg hxy]
            exact ih _ hmem
      | angle a =>
        cases cur with
        | none => rfl
        | some i => exact ih _ hmem
      | count n =>
        cases cur with
        | none => rfl
        | some i => exact ih _ hmem
      | invalid => rfl

/-- Claim C10: the full declarative parser rejects a tape whose `spacing:`
line specifies the zero vector — whenever a `spacing 0 0` line occurs in the
input, parsing returns `NULL` rather than a binding table containing a tape
that never moves between picks. -/
theorem c10_zero_spacing_rejected (lines : List ConfigLine)
    (h : ConfigLine.spacing 0 0 ∈ lines) :
    ParsePnPConfiguration lines = none :=
  parseLines_zero_spacing lines ParseState.init h

/-- Witness for C10 on a two-line file declaring a tape and zero spacing. -/
theorem c10_zero_spacing_rejected_witness :
    ConfigLine.spacing 0 0 ∈
        [ConfigLine.tape ["f@v"], ConfigLine.spacing 0 0] ∧
    ParsePnPConfiguration [ConfigLine.tape ["f@v"], ConfigLine.spacing 0 0] =
      none := by
  exact ⟨by decide, c10_zero_spacing_rejected _ (by decide)⟩

/-- The comparator returns `true` exactly on the strict (height, name)
lexicographic order. -/
theorem componentHeightLt_eq_true_iff (c : PnPConfig) (a b : Part) :
    ComponentHeightLt c a b = true ↔ partKeyLt c a b := by
  unfold ComponentHeightLt partKeyLt
  by_cases h : GetHeight c a = GetHeight c b <;> simp [h]

/-- The comparator's key order is asymmetric. -/
theorem partKeyLt_asymm (c : PnPConfig) {a b : Part}
    (h1 : partKeyLt c a b) (h2 : partKeyLt c b a) : False := by
  rcases h1 with h1 | ⟨he1, hn1⟩ <;> rcases h2 with h2 | ⟨he2, hn2⟩
  · exact lt_asymm h1 h2
  · rw [he2] at h1; exact lt_irrefl _ h1
  · rw [he1] at h2; exact lt_irrefl _ h2
  · exact lt_asymm hn1 hn2

/-- Parts with distinct names are always strictly comparable: if `b` is not
strictly below `a`, then `a` is strictly below `b`. -/
theorem partKeyLt_total_of_ne (c : PnPConfig) {a b : Part}
    (hne : a.component_name ≠ b.component_name)
    (h : ¬ partKeyLt c b a) : partKeyLt c a b := by
  unfold partKeyLt at h ⊢
  push_neg at h
  rcases lt_trichotomy (GetHeight c a) (GetHeight c b) with hlt | heq | hgt
  · exact Or.inl hlt
  · refine Or.inr ⟨heq, ?_⟩
    have hn := h.2 heq.symm
    rcases lt_trichotomy a.component_name b.component_name with h1 | h2 | h3
    · exact h1
    · exact absurd h2 hne
    · exact absurd h3 hn
  · exact absurd hgt (not_lt.mpr h.1)

/-- Relation `partLe` (the order `std::sort` establishes) is the negation of the
reversed strict key order. -/
theorem partLe_iff (c : PnPConfig) (a b : Part) :
    partLe c a b ↔ ¬ partKeyLt c b a := by
  unfold partLe
  rw [← componentHeightLt_eq_true_iff]
  simp

instance (c : PnPConfig) : IsTotal Part (partLe c) :=
  ⟨fun a b => by
    rw [partLe_iff, partLe_iff]
    by_cases h : partKeyLt c b a
    · exact Or.inr fun h2 => partKeyLt_asymm c h2 h
    · exact Or.inl h⟩

instance (c : PnPConfig) : IsTrans Part (partLe c) :=
  ⟨fun p q r h1 h2 => by
    rw [partLe_iff] at h1 h2 ⊢
    unfold partKeyLt at h1 h2 ⊢
    push_neg at h1 h2 ⊢
    have hpq : GetHeight c p ≤ GetHeight c q := h1.1
    have hqr : GetHeight c q ≤ GetHeight c r := h2.1
    refine ⟨le_trans hpq hqr, ?_⟩
    intro heq
    have hqp : GetHeight c q = GetHeight c p :=
      le_antisymm (heq ▸ hqr) hpq
    have hrq : GetHeight c r = GetHeight c q := by rw [heq, hqp]
    have hn1 : p.component_name ≤ q.component_name := h1.2 hqp
    have hn2 : q.component_name ≤ r.component_name := h2.2 hrq
    exact le_trans hn1 hn2⟩

/-- A `std::sort`-ordered list whose parts have pairwise-distinct names is
strictly sorted by the comparator's key order. -/
theorem pairwise_partKeyLt_of_sorted (c : PnPConfig) {out : List Part}
    (hpw : out.Pairwise (partLe c))
    (hn : out.Pairwise fun a b => a.component_name ≠ b.component_name) :
    out.Pairwise (partKeyLt c) :=
  (hpw.and hn).imp fun hab =>
    partKeyLt_total_of_ne c hab.2 ((partLe_iff c _ _).mp hab.1)

/-- Claim C2 (amended): for a part list with pairwise-distinct component
names, any output satisfying `std::sort`'s contract for the height
comparator is unique, and equals the stable sort of the list by ascending
resolved tape height (a part with no binding resolving to height `-1`, which
sorts before any part of greater resolved height — though not necessarily
first, see the counterexample) with ties broken by component name; in
particular, two parts of equal resolved height appear in component-name
order, determined by the name comparison alone, never by memory address or
arbitrary order. -/
theorem c2_visit_order_stable (c : PnPConfig) (parts out : List Part)
    (hnames : parts.Pairwise fun a b => a.component_name ≠ b.component_name)
    (hsort : stdSortSpec c parts out) :
    out = stableVisitOrder c parts ∧
    (∀ (i j : Fin out.length), (i : ℕ) < (j : ℕ) →
      GetHeight c (out.get i) = GetHeight c (out.get j) →
      (out.get i).component_name < (out.get j).component_name) := by
  obtain ⟨hperm, hpw⟩ := hsort
  have hsymm : ∀ {x y : Part},
      x.component_name ≠ y.component_name →
      y.component_name ≠ x.component_name := fun h => h.symm
  have hn_out : out.Pairwise
      (fun a b => a.component_name ≠ b.component_name) :=
    (hperm.pairwise_iff hsymm).mpr hnames
  have hstrict_out : out.Pairwise (partKeyLt c) :=
    pairwise_partKeyLt_of_sorted c hpw hn_out
  have hperm_is : (stableVisitOrder c parts).Perm parts :=
    List.perm_insertionSort _ _
  have hsorted_is : (stableVisitOrder c parts).Pairwise (partLe c) :=
    List.sorted_insertionSort (partLe c) parts
  have hn_is : (stableVisitOrder c parts).Pairwise
      (fun a b => a.component_name ≠ b.component_name) :=
    (hperm_is.pairwise_iff hsymm).mpr hnames
  have hstrict_is : (stableVisitOrder c parts).Pairwise (partKeyLt c) :=
    pairwise_partKeyLt_of_sorted c hsorted_is hn_is
  haveI : IsAntisymm Part (partKeyLt c) :=
    ⟨fun p q h1 h2 => (partKeyLt_asymm c h1 h2).elim⟩
  have heq : out = stableVisitOrder c parts :=
    List.eq_of_perm_of_sorted (hperm.trans hperm_is.symm) hstrict_out
      hstrict_is
  refine ⟨heq, ?_⟩
  intro i j hij hheights
  have hk := List.pairwise_iff_get.mp hstrict_out i j hij
  rcases hk with hlt | ⟨-, hname⟩
  · rw [hheights] at hlt
    exact absurd hlt (lt_irrefl _)
  · exact hname

/-- Witness for C2 at the spec's scenario: three parts with bound heights
{5, 2, 2} and names C3, C1, C2; the sorted output [C1, C2, C3] satisfies the
`std::sort` contract and equals the stable visit order. -/
theorem c2_visit_order_stable_witness :
    ([partC3, partC1, partC2].Pairwise
      fun a b => a.component_name ≠ b.component_name) ∧
    stdSortSpec cfgSample [partC3, partC1, partC2]
      [partC1, partC2, partC3] ∧
    [partC1, partC2, partC3] = stableVisitOrder cfgSample
      [partC3, partC1, partC2] := by
  have hperm : ([partC1, partC2, partC3] : List Part).Perm
      [partC3, partC1, partC2] :=
    ((List.Perm.swap partC1 partC3 [partC2]).trans
      ((List.Perm.swap partC2 partC3 []).cons partC1)).symm
  have hn21 : ¬ ("C2" : String) < "C1" := by
    rw [String.lt_iff_toList_lt]; decide
  have hle12 : partLe cfgSample partC1 partC2 := by
    show ComponentHeightLt cfgSample partC2 partC1 = false
    unfold ComponentHeightLt
    rw [if_pos (by decide :
      GetHeight cfgSample partC2 = GetHeight cfgSample partC1)]
    exact decide_eq_false hn21
  have hpw : List.Pairwise (partLe cfgSample) [partC1, partC2, partC3] := by
    refine List.Pairwise.cons ?_
      (List.Pairwise.cons ?_ (List.pairwise_singleton _ _))
    · intro b hb
      rcases List.mem_cons.mp hb with rfl | hb2
      · exact hle12
      · obtain rfl := List.mem_singleton.mp hb2
        decide
    · intro b hb
      obtain rfl := List.mem_singleton.mp hb
      decide
  have hsort : stdSortSpec cfgSample [partC3, partC1, partC2]
      [partC1, partC2, partC3] := ⟨hperm, hpw⟩
  have h := c2_visit_order_stable cfgSample [partC3, partC1, partC2]
    [partC1, partC2, partC3] (by decide) hsort
  exact ⟨by decide, hsort, h.1⟩

/-- Counterexample to C2 as stated: in `cfgNeg` the part with no binding
(`partFree`, height `-1`) does not sort first — the bound part (`partBound`,
height `-2`) must precede it: the order putting the bound part first
satisfies the `std::sort` contract while the order putting the unbound part
first violates it. -/
theorem c2_visit_order_stable_counterexample :
    stdSortSpec cfgNeg [partFree, partBound] [partBound, partFree] ∧
    ¬ stdSortSpec cfgNeg [partFree, partBound] [partFree, partBound] ∧
    FindTapeForPart cfgNeg partFree = none := by
  refine ⟨⟨List.Perm.swap partFree partBound [], by decide⟩, ?_, by decide⟩
  rintro ⟨-, hpw⟩
  have h := (List.pairwise_cons.mp hpw).1 partBound (List.mem_singleton.mpr rfl)
  exact absurd h (by decide)

end Rpt2pnp
